import Mathlib

/-!
Verification of the streaming JMdict entry-assembly pipeline of
src/indexer.rs (functions create_index, parse_xml_and_index,
handle_start_element, handle_end_element, extract_next_string).

The xml-rs event stream is modelled as a finite list of results: the
constructor REvent.err stands for a step where parser.next() returned
Err, REvent.ok e for a step returning Ok(e).  After the document has
ended, the real parser keeps returning the final EndDocument forever;
the fueled accumulator extractLoop models that tail explicitly, while
the structural functions treat the end of the list as that point.

A TantivyDocument is modelled by the multiset of values added to each
schema field, as a list per field in insertion order (tantivy documents
are multi-valued; add_i64 and add_text append).  The index writer is
modelled as the list of documents passed to add_document, in order.

Rust .unwrap() panics are modelled by Option: a none result of a
handler or of the run means the process aborted by panic.  The only
operations of the source that return an error value through the `?`
operator are the sink (tantivy) calls, which this model treats as
infallible; the id parse and the accumulator use .unwrap(), i.e. they
panic, they never produce an error value.
-/

/-- One XML parse event, cf. the xml::reader::XmlEvent variants the code
matches on; `other` stands for every variant both loops ignore
(StartDocument, CData, Comment, Whitespace, ProcessingInstruction). -/
inductive Event : Type
  | startElement (name : String)
  | endElement (name : String)
  | characters (s : String)
  | endDocument
  | other
deriving DecidableEq, Repr

/-- One result of parser.next(): Ok(event) or Err(_). -/
inductive REvent : Type
  | ok (e : Event)
  | err
deriving DecidableEq, Repr

/-- The whitelist of closing tags that terminate extract_next_string,
in the order the source lists them. -/
def isLeafClose (n : String) : Bool :=
  n = "keb" || n = "reb" || n = "gloss" || n = "pos" || n = "field" || n = "ent_seq"

/-- Structural model of extract_next_string: starting from buffer `buf`,
consume events, appending every Characters payload, until the first
EndElement whose name is whitelisted; return the buffer and the
remaining stream.  `none` models the two abnormal endings of the Rust
loop, which never returns a value to its caller: a parser Err makes
.unwrap() panic, and running past the end of the document spins forever
on the repeated EndDocument (see extractLoop). -/
def extract_next_string (buf : String) : List REvent → Option (String × List REvent)
  | [] => none
  | .err :: _ => none
  | .ok (.characters s) :: rest => extract_next_string (buf ++ s) rest
  | .ok (.endElement n) :: rest =>
    if isLeafClose n then some (buf, rest) else extract_next_string buf rest
  | .ok _ :: rest => extract_next_string buf rest

/-- Outcome of a fuel-bounded run of the extract_next_string loop. -/
inductive ExtractOut : Type
  | done (s : String) (rest : List REvent)
  | panicked
  | outOfFuel
deriving DecidableEq, Repr

/-- Fueled model of the extract_next_string loop, faithful to the tail
behaviour of xml-rs: once the modelled list is exhausted the parser
keeps returning the final EndDocument, which the loop ignores (the
match arm for it is the catch-all), so the loop keeps running and only
the fuel bound stops the model.  A parser Err makes .unwrap() panic. -/
def extractLoop : Nat → String → List REvent → ExtractOut
  | 0, _, _ => .outOfFuel
  | fuel + 1, buf, evs =>
    match evs with
    | [] => extractLoop fuel buf []
    | .err :: _ => .panicked
    | .ok (.characters s) :: rest => extractLoop fuel (buf ++ s) rest
    | .ok (.endElement n) :: rest =>
      if isLeafClose n then .done buf rest else extractLoop fuel buf rest
    | .ok _ :: rest => extractLoop fuel buf rest

/-- The extract_next_string loop never returns on this stream: every
fuel bound is exhausted with the loop still running. -/
def ExtractDiverges (evs : List REvent) : Prop :=
  ∀ fuel, extractLoop fuel "" evs = .outOfFuel

/-- Model of str::parse::\x3ci64\x3e() as used on the ent_seq text: an
optional sign, then at least one ASCII digit, value within the i64
range; anything else is a parse error. -/
def parseI64 (s : String) : Option Int :=
  match s.data with
  | [] => none
  | c :: cs =>
    let p : Bool × List Char :=
      if c = '-' then (true, cs) else if c = '+' then (false, cs) else (false, c :: cs)
    if p.2.isEmpty then none
    else if p.2.all Char.isDigit then
      let n : Nat := p.2.foldl (fun acc d => acc * 10 + (d.toNat - 48)) 0
      let v : Int := if p.1 then -(n : Int) else (n : Int)
      if -(2 ^ 63) ≤ v ∧ v ≤ 2 ^ 63 - 1 then some v else none
    else none

/-- A tantivy document, by schema field: the list of values added to
each field, in insertion order (add_i64 / add_text append). -/
structure TantivyDocument : Type where
  id : List Int
  word : List String
  reading : List String
  reading_romaji : List String
  meaning : List String
  pos : List String
  field : List String
deriving DecidableEq, Repr

/-- tantivy::doc!() — the empty document. -/
def emptyDoc : TantivyDocument := ⟨[], [], [], [], [], [], []⟩

/-- The mutable parse context of parse_xml_and_index. -/
structure ParseContext : Type where
  glosses : List String
  poses : List String
  fields : List String
  current_entry : Option TantivyDocument
  count : Int
deriving DecidableEq, Repr

/-- Model of handle_start_element.  The transliterator (wana_kana
to_romaji) is an external pure function, passed as `romaji`.  Returns
the updated context and the stream left after any leaf extraction;
`none` models a panic: extract_next_string not returning, an
.as_mut().unwrap() on an absent current entry, or a failed
.parse::\x3ci64\x3e().unwrap(). -/
def handle_start_element (romaji : String → String) (element_name : String)
    (evs : List REvent) (context : ParseContext) : Option (ParseContext × List REvent) :=
  match element_name with
  | "entry" => some ({ context with current_entry := some emptyDoc }, evs)
  | "sense" => some ({ context with glosses := [], poses := [], fields := [] }, evs)
  | "ent_seq" =>
    match extract_next_string "" evs with
    | none => none
    | some (s, rest) =>
      match context.current_entry with
      | none => none
      | some d =>
        match parseI64 s with
        | none => none
        | some v =>
          some ({ context with current_entry := some { d with id := d.id ++ [v] } }, rest)
  | "keb" =>
    match extract_next_string "" evs with
    | none => none
    | some (s, rest) =>
      match context.current_entry with
      | none => none
      | some d =>
        some ({ context with current_entry := some { d with word := d.word ++ [s] } }, rest)
  | "reb" =>
    match extract_next_string "" evs with
    | none => none
    | some (s, rest) =>
      match context.current_entry with
      | none => none
      | some d =>
        let d2 : TantivyDocument :=
          { d with reading := d.reading ++ [s], reading_romaji := d.reading_romaji ++ [romaji s] }
        some ({ context with current_entry := some d2 }, rest)
  | "gloss" =>
    match extract_next_string "" evs with
    | none => none
    | some (s, rest) => some ({ context with glosses := context.glosses ++ [s] }, rest)
  | "pos" =>
    match extract_next_string "" evs with
    | none => none
    | some (s, rest) => some ({ context with poses := context.poses ++ [s] }, rest)
  | "field" =>
    match extract_next_string "" evs with
    | none => none
    | some (s, rest) => some ({ context with fields := context.fields ++ [s] }, rest)
  | _ => some (context, evs)

/-- Model of handle_end_element: returns the updated context, the
documents handed to index_writer.add_document (none or one), and the
boolean the Rust function returns (true requests the caller to clear
the sense buffers).  `none` models the .take().unwrap() panic on a
closing entry tag with no entry in flight. -/
def handle_end_element (element_name : String) (context : ParseContext) :
    Option (ParseContext × List TantivyDocument × Bool) :=
  match element_name with
  | "entry" =>
    match context.current_entry with
    | none => none
    | some d =>
      some ({ context with current_entry := none, count := context.count + 1 }, [d], false)
  | "sense" =>
    match context.current_entry with
    | some d =>
      let d2 : TantivyDocument :=
        { d with meaning := d.meaning ++ [String.intercalate "; " context.glosses],
                 pos := d.pos ++ [String.intercalate "; " context.poses],
                 field := d.field ++ [String.intercalate "; " context.fields] }
      some ({ context with current_entry := some d2 }, [], true)
    | none => some (context, [], true)
  | _ => some (context, [], false)

def extract_next_string_length :
    ∀ (evs : List REvent) (buf s : String) (r : List REvent),
      extract_next_string buf evs = some (s, r) → r.length < evs.length := by
  intro evs
  induction evs with
  | nil => intro buf s r h; simp [extract_next_string] at h
  | cons e rest ih =>
    intro buf s r h
    match e with
    | .err => simp [extract_next_string] at h
    | .ok (.characters t) =>
      simp only [extract_next_string] at h
      exact Nat.lt_trans (ih _ _ _ h) (Nat.lt_succ_self _)
    | .ok (.endElement n) =>
      simp only [extract_next_string] at h
      by_cases hn : isLeafClose n
      · simp [hn] at h
        simp [h.2]
      · simp [hn] at h
        exact Nat.lt_trans (ih _ _ _ h) (Nat.lt_succ_self _)
    | .ok (.startElement n) =>
      simp only [extract_next_string] at h
      exact Nat.lt_trans (ih _ _ _ h) (Nat.lt_succ_self _)
    | .ok .endDocument =>
      simp only [extract_next_string] at h
      exact Nat.lt_trans (ih _ _ _ h) (Nat.lt_succ_self _)
    | .ok .other =>
      simp only [extract_next_string] at h
      exact Nat.lt_trans (ih _ _ _ h) (Nat.lt_succ_self _)

def handle_start_element_length (romaji : String → String) (n : String)
    (evs : List REvent) (ctx : ParseContext) (p : ParseContext × List REvent)
    (h : handle_start_element romaji n evs ctx = some p) : p.2.length ≤ evs.length := by
  unfold handle_start_element at h
  split at h
  · cases h; simp
  · cases h; simp
  · split at h
    · exact Option.noConfusion h
    · rename_i s rest hex
      have hlt := extract_next_string_length evs "" s rest hex
      split at h
      · exact Option.noConfusion h
      · split at h
        · exact Option.noConfusion h
        · cases h; exact Nat.le_of_lt hlt
  · split at h
    · exact Option.noConfusion h
    · rename_i s rest hex
      have hlt := extract_next_string_length evs "" s rest hex
      split at h
      · exact Option.noConfusion h
      · cases h; exact Nat.le_of_lt hlt
  · split at h
    · exact Option.noConfusion h
    · rename_i s rest hex
      have hlt := extract_next_string_length evs "" s rest hex
      split at h
      · exact Option.noConfusion h
      · dsimp only at h
        cases h; exact Nat.le_of_lt hlt
  · split at h
    · exact Option.noConfusion h
    · rename_i s rest hex
      have hlt := extract_next_string_length evs "" s rest hex
      cases h; exact Nat.le_of_lt hlt
  · split at h
    · exact Option.noConfusion h
    · rename_i s rest hex
      have hlt := extract_next_string_length evs "" s rest hex
      cases h; exact Nat.le_of_lt hlt
  · split at h
    · exact Option.noConfusion h
    · rename_i s rest hex
      have hlt := extract_next_string_length evs "" s rest hex
      cases h; exact Nat.le_of_lt hlt
  · cases h; simp

/-- The event loop of parse_xml_and_index, threading the parse context
and the list of documents handed to the index writer.  A step where
parser.next() returned Err exits the loop silently (while let Ok) and
the accumulated count is returned, exactly as the source does; `none`
models a panic inside a handler.  Reaching the end of the modelled list
corresponds to the parser repeating the final EndDocument, on which the
loop breaks. -/
def pLoop (romaji : String → String) :
    List REvent → ParseContext → List TantivyDocument → Option (List TantivyDocument × Int)
  | [], ctx, docs => some (docs, ctx.count)
  | .err :: _, ctx, docs => some (docs, ctx.count)
  | .ok (.startElement n) :: rest, ctx, docs =>
    match h : handle_start_element romaji n rest ctx with
    | none => none
    | some (ctx2, rest2) => pLoop romaji rest2 ctx2 docs
  | .ok (.endElement n) :: rest, ctx, docs =>
    match handle_end_element n ctx with
    | none => none
    | some (ctx2, newDocs, clear) =>
      let ctx3 := if clear then { ctx2 with glosses := [], poses := [], fields := [] } else ctx2
      pLoop romaji rest ctx3 (docs ++ newDocs)
  | .ok .endDocument :: _, ctx, docs => some (docs, ctx.count)
  | .ok (.characters _) :: rest, ctx, docs => pLoop romaji rest ctx docs
  | .ok .other :: rest, ctx, docs => pLoop romaji rest ctx docs
termination_by evs _ _ => evs.length
decreasing_by
  · have := handle_start_element_length romaji n rest ctx (ctx2, rest2) h
    simp at this ⊢
    omega
  · simp
  · simp
  · simp

/-- Model of parse_xml_and_index: run the event loop from the initial
context (empty sense buffers, a placeholder empty document in flight,
count zero) with an empty writer. -/
def parse_xml_and_index (romaji : String → String) (stream : List REvent) :
    Option (List TantivyDocument × Int) :=
  pLoop romaji stream ⟨[], [], [], some emptyDoc, 0⟩ []

/-- Observable outcome of create_index: either commit was called on a
writer holding the given documents and the final count, or the process
aborted by panic with no commit. -/
inductive RunOutcome : Type
  | committed (docs : List TantivyDocument) (count : Int)
  | panicked
deriving DecidableEq, Repr

/-- Model of create_index: the writer starts empty
(delete_all_documents), the stream is parsed, and on a normal return
commit_index commits; a panic anywhere prevents the commit.  The sink
operations are modelled as infallible. -/
def create_index (romaji : String → String) (stream : List REvent) : RunOutcome :=
  match parse_xml_and_index romaji stream with
  | none => .panicked
  | some (docs, n) => .committed docs n

/-- Concatenation of the lists produced by f, in order. -/
def flatCat {α β : Type} (f : α → List β) : List α → List β
  | [] => []
  | a :: as => f a ++ flatCat f as

/-- The event stream of one scalar leaf element: opening tag, one
Characters payload, closing tag. -/
def leafEvents (tag s : String) : List REvent :=
  [.ok (.startElement tag), .ok (.characters s), .ok (.endElement tag)]

/-- One leaf nested in a sense element. -/
inductive SenseItem : Type
  | gloss (s : String)
  | pos (s : String)
  | field (s : String)
deriving DecidableEq, Repr

/-- Events of one sense leaf. -/
def senseItemEvents : SenseItem → List REvent
  | .gloss s => leafEvents "gloss" s
  | .pos s => leafEvents "pos" s
  | .field s => leafEvents "field" s

/-- Events of a whole sense element. -/
def senseEvents (its : List SenseItem) : List REvent :=
  .ok (.startElement "sense") :: (flatCat senseItemEvents its ++ [.ok (.endElement "sense")])

/-- The gloss payloads of a sense, in document order. -/
def glossTexts : List SenseItem → List String
  | [] => []
  | .gloss s :: its => s :: glossTexts its
  | _ :: its => glossTexts its

/-- The pos payloads of a sense, in document order. -/
def posTexts : List SenseItem → List String
  | [] => []
  | .pos s :: its => s :: posTexts its
  | _ :: its => posTexts its

/-- The field payloads of a sense, in document order. -/
def fieldTexts : List SenseItem → List String
  | [] => []
  | .field s :: its => s :: fieldTexts its
  | _ :: its => fieldTexts its

/-- One child of an entry element: an orthographic form leaf, a reading
leaf, a whole sense element, or a stray gloss / pos / field leaf that
sits directly under the entry, outside any sense. -/
inductive EntryItem : Type
  | keb (s : String)
  | reb (s : String)
  | sense (its : List SenseItem)
  | strayGloss (s : String)
  | strayPos (s : String)
  | strayField (s : String)
deriving DecidableEq, Repr

/-- Events of one entry child. -/
def entryItemEvents : EntryItem → List REvent
  | .keb s => leafEvents "keb" s
  | .reb s => leafEvents "reb" s
  | .sense its => senseEvents its
  | .strayGloss s => leafEvents "gloss" s
  | .strayPos s => leafEvents "pos" s
  | .strayField s => leafEvents "field" s

/-- An abstract well-formed entry: the text of its ent_seq leaf and its
children in document order. -/
structure Entry : Type where
  ent_seq : String
  items : List EntryItem
deriving DecidableEq, Repr

/-- Events of a whole entry element. -/
def entryEvents (e : Entry) : List REvent :=
  .ok (.startElement "entry") ::
    (leafEvents "ent_seq" e.ent_seq ++ (flatCat entryItemEvents e.items ++ [.ok (.endElement "entry")]))

/-- Events of a whole document: StartDocument (ignored), the JMdict
root element wrapping the entries, then EndDocument. -/
def docEvents (es : List Entry) : List REvent :=
  .ok .other :: .ok (.startElement "JMdict") ::
    (flatCat entryEvents es ++ [.ok (.endElement "JMdict"), .ok .endDocument])

/-- The keb payloads of an entry, in document order. -/
def kebsOf : List EntryItem → List String
  | [] => []
  | .keb s :: its => s :: kebsOf its
  | _ :: its => kebsOf its

/-- The reb payloads of an entry, in document order. -/
def rebsOf : List EntryItem → List String
  | [] => []
  | .reb s :: its => s :: rebsOf its
  | _ :: its => rebsOf its

/-- The sense children of an entry, in document order. -/
def sensesOf : List EntryItem → List (List SenseItem)
  | [] => []
  | .sense x :: its => x :: sensesOf its
  | _ :: its => sensesOf its

/-- Vec::join with the separator used by handle_end_element. -/
def joinSemi (l : List String) : String := String.intercalate "; " l

/-- The document that the pipeline is expected to hand to the writer
for one entry: the parsed id, every keb, every reb together with its
transliteration, and one semicolon-joined triple per sense. -/
def expectedDoc (romaji : String → String) (e : Entry) : TantivyDocument where
  id := (parseI64 e.ent_seq).toList
  word := kebsOf e.items
  reading := rebsOf e.items
  reading_romaji := (rebsOf e.items).map romaji
  meaning := (sensesOf e.items).map (fun x => joinSemi (glossTexts x))
  pos := (sensesOf e.items).map (fun x => joinSemi (posTexts x))
  field := (sensesOf e.items).map (fun x => joinSemi (fieldTexts x))

/-- True for the entry children that are not stray outside-sense
leaves. -/
def notStray : EntryItem → Bool
  | .strayGloss _ => false
  | .strayPos _ => false
  | .strayField _ => false
  | _ => true

/-- The same entry with every stray (outside-sense) gloss / pos / field
leaf removed. -/
def eraseStrays (e : Entry) : Entry :=
  ⟨e.ent_seq, e.items.filter notStray⟩

/-- The document update performed for one reb leaf: the reading and,
right after it, its transliteration. -/
def rebDoc (romaji : String → String) (s : String) (d : TantivyDocument) : TantivyDocument :=
  { d with reading := d.reading ++ [s], reading_romaji := d.reading_romaji ++ [romaji s] }

/-- The document update performed when a sense closes: one
semicolon-joined string per buffer, appended to the three per-sense
output fields. -/
def flushDoc (d : TantivyDocument) (its : List SenseItem) : TantivyDocument :=
  { d with meaning := d.meaning ++ [joinSemi (glossTexts its)],
           pos := d.pos ++ [joinSemi (posTexts its)],
           field := d.field ++ [joinSemi (fieldTexts its)] }

/-- The sense buffers after the children of an entry have been
processed, starting from the given buffer contents: a closed sense
leaves cleared buffers, a stray leaf appends to one of them. -/
def bufsAfter (g p f : List String) : List EntryItem → List String × List String × List String
  | [] => (g, p, f)
  | .sense _ :: its => bufsAfter [] [] [] its
  | .strayGloss s :: its => bufsAfter (g ++ [s]) p f its
  | .strayPos s :: its => bufsAfter g (p ++ [s]) f its
  | .strayField s :: its => bufsAfter g p (f ++ [s]) its
  | .keb _ :: its => bufsAfter g p f its
  | .reb _ :: its => bufsAfter g p f its

/-- The in-flight document after the children of an entry have been
processed on top of document d. -/
def itemsDoc (romaji : String → String) (d : TantivyDocument) (its : List EntryItem) :
    TantivyDocument where
  id := d.id
  word := d.word ++ kebsOf its
  reading := d.reading ++ rebsOf its
  reading_romaji := d.reading_romaji ++ (rebsOf its).map romaji
  meaning := d.meaning ++ (sensesOf its).map (fun x => joinSemi (glossTexts x))
  pos := d.pos ++ (sensesOf its).map (fun x => joinSemi (posTexts x))
  field := d.field ++ (sensesOf its).map (fun x => joinSemi (fieldTexts x))

/-- The parse context left after a list of whole entries has been
processed. -/
def ctxAfterEntries (ctx : ParseContext) : List Entry → ParseContext
  | [] => ctx
  | e :: es =>
    ctxAfterEntries
      ⟨(bufsAfter ctx.glosses ctx.poses ctx.fields e.items).1,
       (bufsAfter ctx.glosses ctx.poses ctx.fields e.items).2.1,
       (bufsAfter ctx.glosses ctx.poses ctx.fields e.items).2.2,
       none, ctx.count + 1⟩ es

/-- True for the events on which the extract_next_string loop keeps
running: everything except a parser error and a whitelisted closing
tag. -/
def keepsLooping : REvent → Bool
  | .err => false
  | .ok (.endElement n) => !(isLeafClose n)
  | .ok _ => true

/-- The concatenation, in arrival order, of all Characters payloads of
a stream. -/
def charsJoin : List REvent → String
  | [] => ""
  | .ok (.characters s) :: l => s ++ charsJoin l
  | _ :: l => charsJoin l

/-- A scalar leaf sitting outside any entry element (before the first
entry or between two entries). -/
inductive PreLeaf : Type
  | keb (s : String)
  | reb (s : String)
  | entSeq (s : String)
  | gloss (s : String)
  | pos (s : String)
  | field (s : String)
deriving DecidableEq, Repr

/-- Events of one outside-entry leaf. -/
def preLeafEvents : PreLeaf → List REvent
  | .keb s => leafEvents "keb" s
  | .reb s => leafEvents "reb" s
  | .entSeq s => leafEvents "ent_seq" s
  | .gloss s => leafEvents "gloss" s
  | .pos s => leafEvents "pos" s
  | .field s => leafEvents "field" s

/-- An outside-entry ent_seq leaf whose text does not parse makes the
id parse .unwrap() panic even outside an entry; this predicate rules
that out so that absorption can be stated. -/
def preOK : PreLeaf → Bool
  | .entSeq s => (parseI64 s).isSome
  | _ => true

/-- Identity transliterator used to instantiate the external adapter in
concrete computations. -/
def idTr : String → String := fun s => s

/-- The entry of the end-to-end scenario of the spec and of the test in
the source: 1, 日本, にほん, one sense with two glosses, two pos, two
fields. -/
def eg1 : Entry :=
  ⟨"1", [.keb "日本", .reb "にほん",
    .sense [.gloss "Japan", .gloss "Japanese", .pos "noun", .pos "proper noun",
      .field "place", .field "country"]]⟩

/-- A second small entry. -/
def eg2 : Entry := ⟨"2", [.keb "水", .sense [.gloss "water"]]⟩

/-- An entry whose ent_seq text is not numeric. -/
def egBad : Entry := ⟨"abc", []⟩

/-- An entry with no sense children. -/
def egNoSense : Entry := ⟨"7", [.keb "山", .reb "やま"]⟩

/-- An entry with stray gloss / pos / field leaves outside its sense. -/
def egStray : Entry :=
  ⟨"9", [.strayGloss "zzz", .keb "k", .sense [.gloss "g"], .strayPos "yy", .strayField "xx"]⟩

theorem pLoop_nil (romaji : String → String) (ctx : ParseContext) (docs : List TantivyDocument) :
    pLoop romaji [] ctx docs = some (docs, ctx.count) := by
  conv_lhs => unfold pLoop

theorem pLoop_err (romaji : String → String) (t : List REvent) (ctx : ParseContext)
    (docs : List TantivyDocument) :
    pLoop romaji (.err :: t) ctx docs = some (docs, ctx.count) := by
  conv_lhs => unfold pLoop

theorem pLoop_endDocument (romaji : String → String) (t : List REvent) (ctx : ParseContext)
    (docs : List TantivyDocument) :
    pLoop romaji (.ok .endDocument :: t) ctx docs = some (docs, ctx.count) := by
  conv_lhs => unfold pLoop

theorem pLoop_characters (romaji : String → String) (s : String) (rest : List REvent)
    (ctx : ParseContext) (docs : List TantivyDocument) :
    pLoop romaji (.ok (.characters s) :: rest) ctx docs = pLoop romaji rest ctx docs := by
  conv_lhs => unfold pLoop

theorem pLoop_other (romaji : String → String) (rest : List REvent)
    (ctx : ParseContext) (docs : List TantivyDocument) :
    pLoop romaji (.ok .other :: rest) ctx docs = pLoop romaji rest ctx docs := by
  conv_lhs => unfold pLoop

theorem pLoop_start_none (romaji : String → String) (n : String) (rest : List REvent)
    (ctx : ParseContext) (docs : List TantivyDocument)
    (h : handle_start_element romaji n rest ctx = none) :
    pLoop romaji (.ok (.startElement n) :: rest) ctx docs = none := by
  conv_lhs => unfold pLoop
  split
  · rfl
  · rename_i ctx2 rest2 hsome
    rw [h] at hsome
    exact Option.noConfusion hsome

theorem pLoop_start_some (romaji : String → String) (n : String) (rest : List REvent)
    (ctx : ParseContext) (docs : List TantivyDocument) (ctx2 : ParseContext)
    (rest2 : List REvent)
    (h : handle_start_element romaji n rest ctx = some (ctx2, rest2)) :
    pLoop romaji (.ok (.startElement n) :: rest) ctx docs = pLoop romaji rest2 ctx2 docs := by
  conv_lhs => unfold pLoop
  split
  · rename_i hnone
    rw [h] at hnone
    exact Option.noConfusion hnone
  · rename_i c2 r2 hsome
    rw [h] at hsome
    injection hsome with h2
    rw [Prod.mk.injEq] at h2
    rw [h2.1, h2.2]

theorem pLoop_end_none (romaji : String → String) (n : String) (rest : List REvent)
    (ctx : ParseContext) (docs : List TantivyDocument)
    (h : handle_end_element n ctx = none) :
    pLoop romaji (.ok (.endElement n) :: rest) ctx docs = none := by
  conv_lhs => unfold pLoop
  split
  · rfl
  · rename_i c2 nd cl hsome
    rw [h] at hsome
    exact Option.noConfusion hsome

theorem pLoop_end_some (romaji : String → String) (n : String) (rest : List REvent)
    (ctx : ParseContext) (docs : List TantivyDocument) (ctx2 : ParseContext)
    (newDocs : List TantivyDocument) (clear : Bool)
    (h : handle_end_element n ctx = some (ctx2, newDocs, clear)) :
    pLoop romaji (.ok (.endElement n) :: rest) ctx docs =
      pLoop romaji rest
        (if clear then { ctx2 with glosses := [], poses := [], fields := [] } else ctx2)
        (docs ++ newDocs) := by
  conv_lhs => unfold pLoop
  split
  · rename_i hnone
    rw [h] at hnone
    exact Option.noConfusion hnone
  · rename_i c2 nd cl hsome
    rw [h] at hsome
    injection hsome with h2
    rw [Prod.mk.injEq, Prod.mk.injEq] at h2
    rw [h2.1, h2.2.1, h2.2.2]

theorem pLoop_keb (romaji : String → String) (s : String) (rest : List REvent)
    (ctx : ParseContext) (docs : List TantivyDocument) (d : TantivyDocument)
    (h : ctx.current_entry = some d) :
    pLoop romaji (leafEvents "keb" s ++ rest) ctx docs =
      pLoop romaji rest { ctx with current_entry := some { d with word := d.word ++ [s] } } docs := by
  have hh : handle_start_element romaji "keb"
      (.ok (.characters s) :: .ok (.endElement "keb") :: rest) ctx =
      some ({ ctx with current_entry := some { d with word := d.word ++ [s] } }, rest) := by
    simp [handle_start_element, extract_next_string, isLeafClose, h]
  simp only [leafEvents, List.cons_append, List.nil_append]
  exact pLoop_start_some _ _ _ _ _ _ _ hh

theorem pLoop_reb (romaji : String → String) (s : String) (rest : List REvent)
    (ctx : ParseContext) (docs : List TantivyDocument) (d : TantivyDocument)
    (h : ctx.current_entry = some d) :
    pLoop romaji (leafEvents "reb" s ++ rest) ctx docs =
      pLoop romaji rest { ctx with current_entry := some (rebDoc romaji s d) } docs := by
  have hh : handle_start_element romaji "reb"
      (.ok (.characters s) :: .ok (.endElement "reb") :: rest) ctx =
      some ({ ctx with current_entry := some (rebDoc romaji s d) }, rest) := by
    simp [handle_start_element, extract_next_string, isLeafClose, h, rebDoc]
  simp only [leafEvents, List.cons_append, List.nil_append]
  exact pLoop_start_some _ _ _ _ _ _ _ hh

theorem pLoop_ent_seq (romaji : String → String) (s : String) (rest : List REvent)
    (ctx : ParseContext) (docs : List TantivyDocument) (d : TantivyDocument) (v : Int)
    (h : ctx.current_entry = some d) (hv : parseI64 s = some v) :
    pLoop romaji (leafEvents "ent_seq" s ++ rest) ctx docs =
      pLoop romaji rest { ctx with current_entry := some { d with id := d.id ++ [v] } } docs := by
  have hh : handle_start_element romaji "ent_seq"
      (.ok (.characters s) :: .ok (.endElement "ent_seq") :: rest) ctx =
      some ({ ctx with current_entry := some { d with id := d.id ++ [v] } }, rest) := by
    simp [handle_start_element, extract_next_string, isLeafClose, h, hv]
  simp only [leafEvents, List.cons_append, List.nil_append]
  exact pLoop_start_some _ _ _ _ _ _ _ hh

theorem pLoop_ent_seq_bad (romaji : String → String) (s : String) (rest : List REvent)
    (ctx : ParseContext) (docs : List TantivyDocument)
    (hv : parseI64 s = none) :
    pLoop romaji (leafEvents "ent_seq" s ++ rest) ctx docs = none := by
  have hh : handle_start_element romaji "ent_seq"
      (.ok (.characters s) :: .ok (.endElement "ent_seq") :: rest) ctx = none := by
    cases hce : ctx.current_entry with
    | none => simp [handle_start_element, extract_next_string, isLeafClose, hce]
    | some d => simp [handle_start_element, extract_next_string, isLeafClose, hce, hv]
  simp only [leafEvents, List.cons_append, List.nil_append]
  exact pLoop_start_none _ _ _ _ _ hh

theorem pLoop_keb_noEntry (romaji : String → String) (s : String) (rest : List REvent)
    (ctx : ParseContext) (docs : List TantivyDocument)
    (h : ctx.current_entry = none) :
    pLoop romaji (leafEvents "keb" s ++ rest) ctx docs = none := by
  have hh : handle_start_element romaji "keb"
      (.ok (.characters s) :: .ok (.endElement "keb") :: rest) ctx = none := by
    simp [handle_start_element, extract_next_string, isLeafClose, h]
  simp only [leafEvents, List.cons_append, List.nil_append]
  exact pLoop_start_none _ _ _ _ _ hh

theorem pLoop_gloss (romaji : String → String) (s : String) (rest : List REvent)
    (ctx : ParseContext) (docs : List TantivyDocument) :
    pLoop romaji (leafEvents "gloss" s ++ rest) ctx docs =
      pLoop romaji rest { ctx with glosses := ctx.glosses ++ [s] } docs := by
  have hh : handle_start_element romaji "gloss"
      (.ok (.characters s) :: .ok (.endElement "gloss") :: rest) ctx =
      some ({ ctx with glosses := ctx.glosses ++ [s] }, rest) := by
    simp [handle_start_element, extract_next_string, isLeafClose]
  simp only [leafEvents, List.cons_append, List.nil_append]
  exact pLoop_start_some _ _ _ _ _ _ _ hh

theorem pLoop_pos (romaji : String → String) (s : String) (rest : List REvent)
    (ctx : ParseContext) (docs : List TantivyDocument) :
    pLoop romaji (leafEvents "pos" s ++ rest) ctx docs =
      pLoop romaji rest { ctx with poses := ctx.poses ++ [s] } docs := by
  have hh : handle_start_element romaji "pos"
      (.ok (.characters s) :: .ok (.endElement "pos") :: rest) ctx =
      some ({ ctx with poses := ctx.poses ++ [s] }, rest) := by
    simp [handle_start_element, extract_next_string, isLeafClose]
  simp only [leafEvents, List.cons_append, List.nil_append]
  exact pLoop_start_some _ _ _ _ _ _ _ hh

theorem pLoop_field (romaji : String → String) (s : String) (rest : List REvent)
    (ctx : ParseContext) (docs : List TantivyDocument) :
    pLoop romaji (leafEvents "field" s ++ rest) ctx docs =
      pLoop romaji rest { ctx with fields := ctx.fields ++ [s] } docs := by
  have hh : handle_start_element romaji "field"
      (.ok (.characters s) :: .ok (.endElement "field") :: rest) ctx =
      some ({ ctx with fields := ctx.fields ++ [s] }, rest) := by
    simp [handle_start_element, extract_next_string, isLeafClose]
  simp only [leafEvents, List.cons_append, List.nil_append]
  exact pLoop_start_some _ _ _ _ _ _ _ hh

theorem pLoop_senseItems (romaji : String → String) (its : List SenseItem) :
    ∀ (ctx : ParseContext) (docs : List TantivyDocument) (rest : List REvent),
      pLoop romaji (flatCat senseItemEvents its ++ rest) ctx docs =
        pLoop romaji rest
          { ctx with glosses := ctx.glosses ++ glossTexts its,
                     poses := ctx.poses ++ posTexts its,
                     fields := ctx.fields ++ fieldTexts its } docs := by
  induction its with
  | nil =>
    intro ctx docs rest
    simp [flatCat, glossTexts, posTexts, fieldTexts]
  | cons it its ih =>
    intro ctx docs rest
    match it with
    | .gloss s =>
      simp only [flatCat, senseItemEvents, List.append_assoc]
      rw [pLoop_gloss, ih]
      simp [glossTexts, posTexts, fieldTexts, List.append_assoc]
    | .pos s =>
      simp only [flatCat, senseItemEvents, List.append_assoc]
      rw [pLoop_pos, ih]
      simp [glossTexts, posTexts, fieldTexts, List.append_assoc]
    | .field s =>
      simp only [flatCat, senseItemEvents, List.append_assoc]
      rw [pLoop_field, ih]
      simp [glossTexts, posTexts, fieldTexts, List.append_assoc]

theorem pLoop_sense (romaji : String → String) (its : List SenseItem) (rest : List REvent)
    (ctx : ParseContext) (docs : List TantivyDocument) (d : TantivyDocument)
    (h : ctx.current_entry = some d) :
    pLoop romaji (senseEvents its ++ rest) ctx docs =
      pLoop romaji rest ⟨[], [], [], some (flushDoc d its), ctx.count⟩ docs := by
  have hstart : handle_start_element romaji "sense"
      (flatCat senseItemEvents its ++ (.ok (.endElement "sense") :: rest)) ctx =
      some ({ ctx with glosses := [], poses := [], fields := [] },
        flatCat senseItemEvents its ++ (.ok (.endElement "sense") :: rest)) := by
    simp [handle_start_element]
  have hend : handle_end_element "sense"
      { ctx with glosses := ([] : List String) ++ glossTexts its,
                 poses := ([] : List String) ++ posTexts its,
                 fields := ([] : List String) ++ fieldTexts its } =
      some ({ ctx with glosses := ([] : List String) ++ glossTexts its,
                       poses := ([] : List String) ++ posTexts its,
                       fields := ([] : List String) ++ fieldTexts its,
                       current_entry := some (flushDoc d its) }, [], true) := by
    simp [handle_end_element, h, flushDoc, joinSemi]
  simp only [senseEvents, List.cons_append, List.append_assoc, List.cons_append, List.nil_append]
  rw [pLoop_start_some _ _ _ _ _ _ _ hstart]
  rw [pLoop_senseItems]
  simp only []
  rw [pLoop_end_some _ _ _ _ _ _ _ _ hend]
  simp

theorem pLoop_items (romaji : String → String) (its : List EntryItem) :
    ∀ (ctx : ParseContext) (d : TantivyDocument) (docs : List TantivyDocument)
      (rest : List REvent), ctx.current_entry = some d →
      pLoop romaji (flatCat entryItemEvents its ++ rest) ctx docs =
        pLoop romaji rest
          ⟨(bufsAfter ctx.glosses ctx.poses ctx.fields its).1,
           (bufsAfter ctx.glosses ctx.poses ctx.fields its).2.1,
           (bufsAfter ctx.glosses ctx.poses ctx.fields its).2.2,
           some (itemsDoc romaji d its), ctx.count⟩ docs := by
  induction its with
  | nil =>
    intro ctx d docs rest h
    simp only [flatCat, List.nil_append, bufsAfter]
    rw [show (⟨ctx.glosses, ctx.poses, ctx.fields, some (itemsDoc romaji d []),
      ctx.count⟩ : ParseContext) = { ctx with current_entry := some (itemsDoc romaji d []) }
      from rfl]
    rw [show itemsDoc romaji d [] = d by simp [itemsDoc, kebsOf, rebsOf, sensesOf]]
    rw [← h]
  | cons it its ih =>
    intro ctx d docs rest h
    match it with
    | .keb s =>
      simp only [flatCat, entryItemEvents, List.append_assoc]
      rw [pLoop_keb _ _ _ _ _ _ h]
      rw [ih _ { d with word := d.word ++ [s] } _ _ (by rfl)]
      simp [bufsAfter, itemsDoc, kebsOf, rebsOf, sensesOf, List.append_assoc]
    | .reb s =>
      simp only [flatCat, entryItemEvents, List.append_assoc]
      rw [pLoop_reb _ _ _ _ _ _ h]
      rw [ih _ (rebDoc romaji s d) _ _ (by rfl)]
      simp [bufsAfter, itemsDoc, rebDoc, kebsOf, rebsOf, sensesOf, List.append_assoc]
    | .sense sits =>
      simp only [flatCat, entryItemEvents, List.append_assoc]
      rw [pLoop_sense _ _ _ _ _ _ h]
      rw [ih _ (flushDoc d sits) _ _ (by rfl)]
      simp [bufsAfter, itemsDoc, flushDoc, kebsOf, rebsOf, sensesOf, List.append_assoc]
    | .strayGloss s =>
      simp only [flatCat, entryItemEvents, List.append_assoc]
      rw [pLoop_gloss]
      rw [ih _ d _ _ (by simpa using h)]
      simp [bufsAfter, itemsDoc, kebsOf, rebsOf, sensesOf, List.append_assoc]
    | .strayPos s =>
      simp only [flatCat, entryItemEvents, List.append_assoc]
      rw [pLoop_pos]
      rw [ih _ d _ _ (by simpa using h)]
      simp [bufsAfter, itemsDoc, kebsOf, rebsOf, sensesOf, List.append_assoc]
    | .strayField s =>
      simp only [flatCat, entryItemEvents, List.append_assoc]
      rw [pLoop_field]
      rw [ih _ d _ _ (by simpa using h)]
      simp [bufsAfter, itemsDoc, kebsOf, rebsOf, sensesOf, List.append_assoc]

theorem pLoop_entry (romaji : String → String) (e : Entry) (rest : List REvent)
    (ctx : ParseContext) (docs : List TantivyDocument) (v : Int)
    (hv : parseI64 e.ent_seq = some v) :
    pLoop romaji (entryEvents e ++ rest) ctx docs =
      pLoop romaji rest
        ⟨(bufsAfter ctx.glosses ctx.poses ctx.fields e.items).1,
         (bufsAfter ctx.glosses ctx.poses ctx.fields e.items).2.1,
         (bufsAfter ctx.glosses ctx.poses ctx.fields e.items).2.2,
         none, ctx.count + 1⟩ (docs ++ [expectedDoc romaji e]) := by
  have hstart : handle_start_element romaji "entry"
      (leafEvents "ent_seq" e.ent_seq ++
        (flatCat entryItemEvents e.items ++ (.ok (.endElement "entry") :: rest))) ctx =
      some ({ ctx with current_entry := some emptyDoc },
        leafEvents "ent_seq" e.ent_seq ++
          (flatCat entryItemEvents e.items ++ (.ok (.endElement "entry") :: rest))) := by
    simp [handle_start_element]
  have hD : itemsDoc romaji { emptyDoc with id := emptyDoc.id ++ [v] } e.items =
      expectedDoc romaji e := by
    simp [itemsDoc, expectedDoc, emptyDoc, hv]
  have hend : handle_end_element "entry"
      (⟨(bufsAfter ctx.glosses ctx.poses ctx.fields e.items).1,
        (bufsAfter ctx.glosses ctx.poses ctx.fields e.items).2.1,
        (bufsAfter ctx.glosses ctx.poses ctx.fields e.items).2.2,
        some (expectedDoc romaji e), ctx.count⟩ : ParseContext) =
      some (⟨(bufsAfter ctx.glosses ctx.poses ctx.fields e.items).1,
        (bufsAfter ctx.glosses ctx.poses ctx.fields e.items).2.1,
        (bufsAfter ctx.glosses ctx.poses ctx.fields e.items).2.2,
        none, ctx.count + 1⟩, [expectedDoc romaji e], false) := by
    simp [handle_end_element]
  simp only [entryEvents, List.cons_append, List.append_assoc, List.nil_append]
  rw [pLoop_start_some _ _ _ _ _ _ _ hstart]
  rw [pLoop_ent_seq _ _ _ _ _ emptyDoc v (by rfl) hv]
  rw [pLoop_items _ _ _ { emptyDoc with id := emptyDoc.id ++ [v] } _ _ (by rfl)]
  simp only [hD]
  rw [pLoop_end_some _ _ _ _ _ _ _ _ hend]
  simp

theorem ctxAfterEntries_count (es : List Entry) :
    ∀ ctx : ParseContext, (ctxAfterEntries ctx es).count = ctx.count + es.length := by
  induction es with
  | nil => intro ctx; simp [ctxAfterEntries]
  | cons e es ih =>
    intro ctx
    rw [ctxAfterEntries, ih]
    simp
    omega

theorem ctxAfterEntries_no_entry (es : List Entry) :
    ∀ ctx : ParseContext, es ≠ [] → (ctxAfterEntries ctx es).current_entry = none := by
  induction es with
  | nil => intro ctx h; exact absurd rfl h
  | cons e es ih =>
    intro ctx _
    rw [ctxAfterEntries]
    cases es with
    | nil => rw [ctxAfterEntries]
    | cons e2 es2 => exact ih _ (by simp)

theorem pLoop_entries (romaji : String → String) (es : List Entry) :
    ∀ (ctx : ParseContext) (docs : List TantivyDocument) (rest : List REvent),
      (∀ e ∈ es, (parseI64 e.ent_seq).isSome) →
      pLoop romaji (flatCat entryEvents es ++ rest) ctx docs =
        pLoop romaji rest (ctxAfterEntries ctx es) (docs ++ es.map (expectedDoc romaji)) := by
  induction es with
  | nil =>
    intro ctx docs rest _
    simp [flatCat, ctxAfterEntries]
  | cons e es ih =>
    intro ctx docs rest h
    obtain ⟨v, hv⟩ := Option.isSome_iff_exists.mp (h e (by simp))
    simp only [flatCat, List.append_assoc]
    rw [pLoop_entry _ _ _ _ _ v hv]
    rw [ih _ _ _ (fun x hx => h x (by simp [hx]))]
    rw [ctxAfterEntries]
    simp

/-- Full-run characterization on a well-formed document: when every
ent_seq text parses, the run commits exactly one expected document per
entry, in document order, and the final count equals the number of
entries. -/
theorem run_docEvents (romaji : String → String) (es : List Entry)
    (h : ∀ e ∈ es, (parseI64 e.ent_seq).isSome) :
    create_index romaji (docEvents es) =
      .committed (es.map (expectedDoc romaji)) (es.length : Int) := by
  have hroot : handle_start_element romaji "JMdict"
      (flatCat entryEvents es ++ [.ok (.endElement "JMdict"), .ok .endDocument])
      (⟨[], [], [], some emptyDoc, 0⟩ : ParseContext) =
      some (⟨[], [], [], some emptyDoc, 0⟩,
        flatCat entryEvents es ++ [.ok (.endElement "JMdict"), .ok .endDocument]) := by
    simp [handle_start_element]
  have hrootEnd : handle_end_element "JMdict"
      (ctxAfterEntries ⟨[], [], [], some emptyDoc, 0⟩ es) =
      some (ctxAfterEntries ⟨[], [], [], some emptyDoc, 0⟩ es, [], false) := by
    simp [handle_end_element]
  rw [create_index, parse_xml_and_index, docEvents]
  rw [pLoop_other]
  rw [pLoop_start_some _ _ _ _ _ _ _ hroot]
  rw [pLoop_entries _ _ _ _ _ h]
  rw [pLoop_end_some _ _ _ _ _ _ _ _ hrootEnd]
  simp only [Bool.false_eq_true, if_false, List.append_nil]
  rw [pLoop_endDocument]
  rw [ctxAfterEntries_count]
  simp

theorem handle_start_JMdict (romaji : String → String) (evs : List REvent) (ctx : ParseContext) :
    handle_start_element romaji "JMdict" evs ctx = some (ctx, evs) := by
  simp [handle_start_element]

theorem handle_end_JMdict (ctx : ParseContext) :
    handle_end_element "JMdict" ctx = some (ctx, [], false) := by
  simp [handle_end_element]

theorem handle_start_entry (romaji : String → String) (evs : List REvent) (ctx : ParseContext) :
    handle_start_element romaji "entry" evs ctx =
      some ({ ctx with current_entry := some emptyDoc }, evs) := by
  simp [handle_start_element]

theorem extract_concat (w : String) (hw : isLeafClose w = true) :
    ∀ (pre : List REvent) (buf : String) (rest : List REvent),
      pre.all keepsLooping = true →
      extract_next_string buf (pre ++ .ok (.endElement w) :: rest) =
        some (buf ++ charsJoin pre, rest) := by
  intro pre
  induction pre with
  | nil =>
    intro buf rest _
    simp [extract_next_string, hw, charsJoin]
  | cons e pre ih =>
    intro buf rest hall
    simp only [List.all_cons, Bool.and_eq_true] at hall
    match e with
    | .err => exact absurd hall.1 (by simp [keepsLooping])
    | .ok (.characters s) =>
      simp only [List.cons_append, extract_next_string, List.append_eq]
      rw [ih _ _ hall.2]
      simp [charsJoin, String.append_assoc]
    | .ok (.endElement n) =>
      have hn : isLeafClose n = false := by simpa [keepsLooping] using hall.1
      simp only [List.cons_append, extract_next_string, List.append_eq, hn,
        Bool.false_eq_true, if_false]
      rw [ih _ _ hall.2]
      simp [charsJoin]
    | .ok (.startElement n) =>
      simp only [List.cons_append, extract_next_string, List.append_eq]
      rw [ih _ _ hall.2]
      simp [charsJoin]
    | .ok .endDocument =>
      simp only [List.cons_append, extract_next_string, List.append_eq]
      rw [ih _ _ hall.2]
      simp [charsJoin]
    | .ok .other =>
      simp only [List.cons_append, extract_next_string, List.append_eq]
      rw [ih _ _ hall.2]
      simp [charsJoin]

theorem extractLoop_spins :
    ∀ (fuel : Nat) (buf : String) (evs : List REvent), evs.all keepsLooping = true →
      extractLoop fuel buf evs = .outOfFuel := by
  intro fuel
  induction fuel with
  | zero => intro buf evs _; rfl
  | succ fuel ih =>
    intro buf evs hall
    match evs with
    | [] =>
      show extractLoop fuel buf [] = .outOfFuel
      exact ih _ _ (by simp)
    | e :: rest =>
      simp only [List.all_cons, Bool.and_eq_true] at hall
      match e with
      | .err => exact absurd hall.1 (by simp [keepsLooping])
      | .ok (.characters s) =>
        show extractLoop fuel (buf ++ s) rest = .outOfFuel
        exact ih _ _ hall.2
      | .ok (.endElement n) =>
        have hn : isLeafClose n = false := by simpa [keepsLooping] using hall.1
        show (if isLeafClose n then ExtractOut.done buf rest else extractLoop fuel buf rest) =
          .outOfFuel
        rw [hn]
        simp only [Bool.false_eq_true, if_false]
        exact ih _ _ hall.2
      | .ok (.startElement n) =>
        show extractLoop fuel buf rest = .outOfFuel
        exact ih _ _ hall.2
      | .ok .endDocument =>
        show extractLoop fuel buf rest = .outOfFuel
        exact ih _ _ hall.2
      | .ok .other =>
        show extractLoop fuel buf rest = .outOfFuel
        exact ih _ _ hall.2

theorem kebsOf_filter (its : List EntryItem) : kebsOf (its.filter notStray) = kebsOf its := by
  induction its with
  | nil => rfl
  | cons it its ih => cases it <;> simp [List.filter, notStray, kebsOf, ih]

theorem rebsOf_filter (its : List EntryItem) : rebsOf (its.filter notStray) = rebsOf its := by
  induction its with
  | nil => rfl
  | cons it its ih => cases it <;> simp [List.filter, notStray, rebsOf, ih]

theorem sensesOf_filter (its : List EntryItem) :
    sensesOf (its.filter notStray) = sensesOf its := by
  induction its with
  | nil => rfl
  | cons it its ih => cases it <;> simp [List.filter, notStray, sensesOf, ih]

theorem expectedDoc_eraseStrays (romaji : String → String) (e : Entry) :
    expectedDoc romaji (eraseStrays e) = expectedDoc romaji e := by
  simp [expectedDoc, eraseStrays, kebsOf_filter, rebsOf_filter, sensesOf_filter]

theorem pLoop_preLeaves (romaji : String → String) (pre : List PreLeaf) :
    ∀ (ctx : ParseContext) (d : TantivyDocument) (docs : List TantivyDocument)
      (rest : List REvent), ctx.current_entry = some d → pre.all preOK = true →
      ∃ ctx2 : ParseContext, (∃ d2, ctx2.current_entry = some d2) ∧ ctx2.count = ctx.count ∧
        pLoop romaji (flatCat preLeafEvents pre ++ rest) ctx docs = pLoop romaji rest ctx2 docs := by
  induction pre with
  | nil =>
    intro ctx d docs rest h _
    exact ⟨ctx, ⟨d, h⟩, rfl, by simp [flatCat]⟩
  | cons l pre ih =>
    intro ctx d docs rest h hall
    simp only [List.all_cons, Bool.and_eq_true] at hall
    match l with
    | .keb s =>
      obtain ⟨ctx2, hce, hct, heq⟩ :=
        ih { ctx with current_entry := some { d with word := d.word ++ [s] } }
          { d with word := d.word ++ [s] } docs rest rfl hall.2
      refine ⟨ctx2, hce, hct, ?_⟩
      simp only [flatCat, preLeafEvents, List.append_assoc]
      rw [pLoop_keb _ _ _ _ _ _ h]
      exact heq
    | .reb s =>
      obtain ⟨ctx2, hce, hct, heq⟩ :=
        ih { ctx with current_entry := some (rebDoc romaji s d) }
          (rebDoc romaji s d) docs rest rfl hall.2
      refine ⟨ctx2, hce, hct, ?_⟩
      simp only [flatCat, preLeafEvents, List.append_assoc]
      rw [pLoop_reb _ _ _ _ _ _ h]
      exact heq
    | .entSeq s =>
      obtain ⟨v, hv⟩ := Option.isSome_iff_exists.mp (by simpa [preOK] using hall.1)
      obtain ⟨ctx2, hce, hct, heq⟩ :=
        ih { ctx with current_entry := some { d with id := d.id ++ [v] } }
          { d with id := d.id ++ [v] } docs rest rfl hall.2
      refine ⟨ctx2, hce, hct, ?_⟩
      simp only [flatCat, preLeafEvents, List.append_assoc]
      rw [pLoop_ent_seq _ _ _ _ _ _ v h hv]
      exact heq
    | .gloss s =>
      obtain ⟨ctx2, hce, hct, heq⟩ :=
        ih { ctx with glosses := ctx.glosses ++ [s] } d docs rest h hall.2
      refine ⟨ctx2, hce, hct, ?_⟩
      simp only [flatCat, preLeafEvents, List.append_assoc]
      rw [pLoop_gloss]
      exact heq
    | .pos s =>
      obtain ⟨ctx2, hce, hct, heq⟩ :=
        ih { ctx with poses := ctx.poses ++ [s] } d docs rest h hall.2
      refine ⟨ctx2, hce, hct, ?_⟩
      simp only [flatCat, preLeafEvents, List.append_assoc]
      rw [pLoop_pos]
      exact heq
    | .field s =>
      obtain ⟨ctx2, hce, hct, heq⟩ :=
        ih { ctx with fields := ctx.fields ++ [s] } d docs rest h hall.2
      refine ⟨ctx2, hce, hct, ?_⟩
      simp only [flatCat, preLeafEvents, List.append_assoc]
      rw [pLoop_field]
      exact heq

theorem run_pre_strays (romaji : String → String) (pre : List PreLeaf) (es : List Entry)
    (hpre : pre.all preOK = true) (h : ∀ e ∈ es, (parseI64 e.ent_seq).isSome) :
    create_index romaji (.ok .other :: .ok (.startElement "JMdict") ::
      (flatCat preLeafEvents pre ++
        (flatCat entryEvents es ++ [.ok (.endElement "JMdict"), .ok .endDocument]))) =
      .committed (es.map (expectedDoc romaji)) (es.length : Int) := by
  obtain ⟨ctx2, ⟨d2, hce⟩, hct, heq⟩ :=
    pLoop_preLeaves romaji pre ⟨[], [], [], some emptyDoc, 0⟩ emptyDoc []
      (flatCat entryEvents es ++ [.ok (.endElement "JMdict"), .ok .endDocument]) rfl hpre
  rw [create_index, parse_xml_and_index, pLoop_other]
  rw [pLoop_start_some _ _ _ _ _ _ _ (handle_start_JMdict _ _ _)]
  rw [heq]
  rw [pLoop_entries _ _ _ _ _ h]
  rw [pLoop_end_some _ _ _ _ _ _ _ _ (handle_end_JMdict _)]
  simp only [Bool.false_eq_true, if_false, List.append_nil]
  rw [pLoop_endDocument]
  rw [ctxAfterEntries_count, hct]
  simp

theorem run_between_record_leaf (romaji : String → String) (e : Entry) (es : List Entry)
    (s : String) (rest : List REvent)
    (h : ∀ x ∈ e :: es, (parseI64 x.ent_seq).isSome) :
    create_index romaji (.ok .other :: .ok (.startElement "JMdict") ::
      (flatCat entryEvents (e :: es) ++ (leafEvents "keb" s ++ rest))) = .panicked := by
  rw [create_index, parse_xml_and_index, pLoop_other]
  rw [pLoop_start_some _ _ _ _ _ _ _ (handle_start_JMdict _ _ _)]
  rw [pLoop_entries _ _ _ _ _ h]
  rw [pLoop_keb_noEntry _ _ _ _ _ (ctxAfterEntries_no_entry _ _ (by simp))]

theorem run_bad_id (romaji : String → String) (good : List Entry) (e : Entry)
    (rest : List REvent)
    (hgood : ∀ x ∈ good, (parseI64 x.ent_seq).isSome) (hbad : parseI64 e.ent_seq = none) :
    create_index romaji (.ok .other :: .ok (.startElement "JMdict") ::
      (flatCat entryEvents good ++ (entryEvents e ++ rest))) = .panicked := by
  rw [create_index, parse_xml_and_index, pLoop_other]
  rw [pLoop_start_some _ _ _ _ _ _ _ (handle_start_JMdict _ _ _)]
  rw [pLoop_entries _ _ _ _ _ hgood]
  simp only [entryEvents, List.cons_append, List.append_assoc, List.nil_append]
  rw [pLoop_start_some _ _ _ _ _ _ _ (handle_start_entry _ _ _)]
  rw [pLoop_ent_seq_bad _ _ _ _ _ hbad]

theorem run_source_err (romaji : String → String) (good : List Entry) (rest : List REvent)
    (hgood : ∀ x ∈ good, (parseI64 x.ent_seq).isSome) :
    create_index romaji (.ok .other :: .ok (.startElement "JMdict") ::
      (flatCat entryEvents good ++ (.err :: rest))) =
      .committed (good.map (expectedDoc romaji)) (good.length : Int) := by
  rw [create_index, parse_xml_and_index, pLoop_other]
  rw [pLoop_start_some _ _ _ _ _ _ _ (handle_start_JMdict _ _ _)]
  rw [pLoop_entries _ _ _ _ _ hgood]
  rw [pLoop_err]
  rw [ctxAfterEntries_count]
  simp

theorem run_err_in_leaf (romaji : String → String) (good : List Entry) (rest : List REvent)
    (hgood : ∀ x ∈ good, (parseI64 x.ent_seq).isSome) :
    create_index romaji (.ok .other :: .ok (.startElement "JMdict") ::
      (flatCat entryEvents good ++
        (.ok (.startElement "entry") :: .ok (.startElement "ent_seq") :: .err :: rest))) =
      .panicked := by
  have hseq : handle_start_element romaji "ent_seq" (.err :: rest)
      { ctxAfterEntries (⟨[], [], [], some emptyDoc, 0⟩ : ParseContext) good with
        current_entry := some emptyDoc } = none := by
    simp [handle_start_element, extract_next_string]
  rw [create_index, parse_xml_and_index, pLoop_other]
  rw [pLoop_start_some _ _ _ _ _ _ _ (handle_start_JMdict _ _ _)]
  rw [pLoop_entries _ _ _ _ _ hgood]
  rw [pLoop_start_some _ _ _ _ _ _ _ (handle_start_entry _ _ _)]
  rw [pLoop_start_none _ _ _ _ _ hseq]

/-- C1: for every well-formed entry with N sense children, the
committed record has meanings, parts-of-speech and semantic-fields
sequences of length exactly N, in document (sense) order, and for each
index the element is the semicolon-joined concatenation of that sense
accumulated gloss / pos / field values. -/
theorem C1_per_sense_triples (romaji : String → String) (e : Entry)
    (h : (parseI64 e.ent_seq).isSome) :
    ∃ d, create_index romaji (docEvents [e]) = .committed [d] 1 ∧
      d.meaning = (sensesOf e.items).map (fun x => joinSemi (glossTexts x)) ∧
      d.pos = (sensesOf e.items).map (fun x => joinSemi (posTexts x)) ∧
      d.field = (sensesOf e.items).map (fun x => joinSemi (fieldTexts x)) ∧
      d.meaning.length = (sensesOf e.items).length ∧
      d.pos.length = (sensesOf e.items).length ∧
      d.field.length = (sensesOf e.items).length := by
  refine ⟨expectedDoc romaji e, ?_, rfl, rfl, rfl, ?_, ?_, ?_⟩
  · have hr := run_docEvents romaji [e] (by simpa using h)
    simpa using hr
  · simp [expectedDoc]
  · simp [expectedDoc]
  · simp [expectedDoc]

theorem C1_per_sense_triples_witness :
    ((parseI64 eg1.ent_seq).isSome = true) ∧
      (∃ d, create_index idTr (docEvents [eg1]) = .committed [d] 1 ∧
        d.meaning = (sensesOf eg1.items).map (fun x => joinSemi (glossTexts x)) ∧
        d.pos = (sensesOf eg1.items).map (fun x => joinSemi (posTexts x)) ∧
        d.field = (sensesOf eg1.items).map (fun x => joinSemi (fieldTexts x)) ∧
        d.meaning.length = (sensesOf eg1.items).length ∧
        d.pos.length = (sensesOf eg1.items).length ∧
        d.field.length = (sensesOf eg1.items).length) :=
  ⟨by decide, C1_per_sense_triples idTr eg1 (by decide)⟩

/-- C2: for every well-formed entry, the committed record has exactly
one reading per reb leaf in document order, the romanized sequence has
the same length, and element by element it is the transliteration of
the corresponding reading. -/
theorem C2_readings_romanized_paired (romaji : String → String) (e : Entry)
    (h : (parseI64 e.ent_seq).isSome) :
    ∃ d, create_index romaji (docEvents [e]) = .committed [d] 1 ∧
      d.reading = rebsOf e.items ∧
      d.reading_romaji = d.reading.map romaji ∧
      d.reading_romaji.length = d.reading.length ∧
      ∀ i : Nat, d.reading_romaji[i]? = (d.reading[i]?).map romaji := by
  refine ⟨expectedDoc romaji e, ?_, rfl, rfl, by simp [expectedDoc], ?_⟩
  · have hr := run_docEvents romaji [e] (by simpa using h)
    simpa using hr
  · intro i
    simp [expectedDoc]

theorem C2_readings_romanized_paired_witness :
    ((parseI64 eg1.ent_seq).isSome = true) ∧
      (∃ d, create_index idTr (docEvents [eg1]) = .committed [d] 1 ∧
        d.reading = rebsOf eg1.items ∧
        d.reading_romaji = d.reading.map idTr ∧
        d.reading_romaji.length = d.reading.length ∧
        ∀ i : Nat, d.reading_romaji[i]? = (d.reading[i]?).map idTr) :=
  ⟨by decide, C2_readings_romanized_paired idTr eg1 (by decide)⟩

/-- C5: positioned just after a leaf StartElement, the accumulator
returns the concatenation, in arrival order, of every Characters
payload seen before the first whitelisted EndElement; an EndElement
with any other name neither terminates the accumulation nor
contributes to the result. -/
theorem C5_accumulator_concat (pre : List REvent) (w : String) (rest : List REvent)
    (hw : isLeafClose w = true) (hpre : pre.all keepsLooping = true) :
    extract_next_string "" (pre ++ .ok (.endElement w) :: rest) =
      some (charsJoin pre, rest) := by
  have h := extract_concat w hw pre "" rest hpre
  simpa using h

theorem C5_accumulator_concat_witness :
    isLeafClose "gloss" = true ∧
      ([.ok (.characters "Jap"), .ok (.endElement "k_ele"), .ok (.characters "an"),
        .ok .other] : List REvent).all keepsLooping = true ∧
      extract_next_string ""
        ([.ok (.characters "Jap"), .ok (.endElement "k_ele"), .ok (.characters "an"),
          .ok .other] ++ .ok (.endElement "gloss") :: [.ok .endDocument]) =
        some (charsJoin [.ok (.characters "Jap"), .ok (.endElement "k_ele"),
          .ok (.characters "an"), .ok .other], [.ok .endDocument]) :=
  ⟨by decide, by decide, C5_accumulator_concat _ "gloss" _ (by decide) (by decide)⟩

/-- C6 counterexample: on a stream that ends (a Characters payload and
then EndDocument, which the parser repeats forever) before any
whitelisted closing tag, the accumulator does not terminate with an
error as the claim states: the loop model exhausts every fuel bound
(it spins forever on the ignored EndDocument), and the structural
model yields no value at all — there is no error return, since the
function returns a plain String in the source and its only exits are
a break on a whitelisted closer or an .unwrap() panic. -/
theorem C6_accumulator_diverges_cex :
    ExtractDiverges [.ok (.characters "x"), .ok .endDocument] ∧
      extract_next_string "" [.ok (.characters "x"), .ok .endDocument] = none :=
  ⟨fun fuel => extractLoop_spins fuel "" _ (by decide), by decide⟩

/-- C6 amended: if the stream runs to its end (EndDocument, repeated
forever by the parser) before a whitelisted closing tag is seen, the
accumulator never returns: it loops forever ignoring the repeated
EndDocument; it does not return an error value (and a parser error
makes it panic instead). -/
theorem C6_stream_end_never_returns_amended (evs : List REvent)
    (h : evs.all keepsLooping = true) : ExtractDiverges evs :=
  fun fuel => extractLoop_spins fuel "" evs h

theorem C6_stream_end_never_returns_amended_witness :
    (([.ok .other, .ok .endDocument] : List REvent).all keepsLooping = true) ∧
      ExtractDiverges [.ok .other, .ok .endDocument] :=
  ⟨by decide, C6_stream_end_never_returns_amended _ (by decide)⟩

/-- C8: the pipeline is deterministic — two runs of entry assembly
over the same event stream into an empty destination produce the same
outcome, hence identical record sequences in order and content. -/
theorem C8_deterministic (romaji : String → String) (stream : List REvent)
    (r1 r2 : RunOutcome) (h1 : create_index romaji stream = r1)
    (h2 : create_index romaji stream = r2) : r1 = r2 := by
  rw [← h1, ← h2]

theorem C8_deterministic_witness :
    create_index idTr (docEvents [eg1]) = create_index idTr (docEvents [eg1]) :=
  C8_deterministic idTr (docEvents [eg1]) _ _ rfl rfl

/-- C3 counterexample: on an entry whose ent_seq text is not numeric
the run does not fail with a returned error value as the claim states:
it aborts by panic — the source calls .parse::\x3ci64\x3e().unwrap(),
so the parse failure is never propagated as an error value.  The
panicked outcome also shows that no commit happens. -/
theorem C3_malformed_id_panics_cex :
    create_index idTr (docEvents [egBad]) = .panicked := by
  have h := run_bad_id idTr [] egBad [.ok (.endElement "JMdict"), .ok .endDocument]
    (by simp) (by decide)
  simpa [docEvents, flatCat] using h

/-- C3 amended: for every input whose ent_seq leaf text does not parse
as an integer, processing aborts the whole run by panic (the .unwrap()
on the failed parse) before any commit; no error value is returned. -/
theorem C3_malformed_id_aborts_amended (romaji : String → String) (good : List Entry)
    (e : Entry) (rest : List REvent)
    (hgood : ∀ x ∈ good, (parseI64 x.ent_seq).isSome) (hbad : parseI64 e.ent_seq = none) :
    create_index romaji (.ok .other :: .ok (.startElement "JMdict") ::
      (flatCat entryEvents good ++ (entryEvents e ++ rest))) = .panicked :=
  run_bad_id romaji good e rest hgood hbad

theorem C3_malformed_id_aborts_amended_witness :
    (∀ x ∈ [eg1], (parseI64 x.ent_seq).isSome) ∧ parseI64 egBad.ent_seq = none ∧
      create_index idTr (.ok .other :: .ok (.startElement "JMdict") ::
        (flatCat entryEvents [eg1] ++ (entryEvents egBad ++ [.ok .endDocument]))) =
        .panicked :=
  ⟨by decide, by decide,
    C3_malformed_id_aborts_amended idTr [eg1] egBad [.ok .endDocument] (by decide) (by decide)⟩

/-- C4 counterexample: when the event source yields an error at the
top-level loop after one complete entry, the run does not abort with
that error: the while-let silently treats the error as end of stream,
and the run commits the partial index (here one document) — directly
contradicting the claim that no commit is performed. -/
theorem C4_source_error_commits_cex :
    create_index idTr (.ok .other :: .ok (.startElement "JMdict") ::
      (flatCat entryEvents [eg1] ++ (.err :: entryEvents eg2))) =
      .committed [expectedDoc idTr eg1] 1 := by
  have h := run_source_err idTr [eg1] (entryEvents eg2) (by decide)
  simpa using h

/-- C4 amended: a source error at the top-level event loop silently
ends the iteration and the run goes on to commit whatever was already
added (a partial commit, with no error reported); a source error that
occurs while a leaf is being accumulated instead panics the run, so
nothing is committed — in neither case is the error propagated as an
error value. -/
theorem C4_source_error_behavior_amended :
    (∀ (romaji : String → String) (good : List Entry) (rest : List REvent),
      (∀ x ∈ good, (parseI64 x.ent_seq).isSome) →
      create_index romaji (.ok .other :: .ok (.startElement "JMdict") ::
        (flatCat entryEvents good ++ (.err :: rest))) =
        .committed (good.map (expectedDoc romaji)) (good.length : Int)) ∧
    (∀ (romaji : String → String) (good : List Entry) (rest : List REvent),
      (∀ x ∈ good, (parseI64 x.ent_seq).isSome) →
      create_index romaji (.ok .other :: .ok (.startElement "JMdict") ::
        (flatCat entryEvents good ++
          (.ok (.startElement "entry") :: .ok (.startElement "ent_seq") :: .err :: rest))) =
        .panicked) :=
  ⟨run_source_err, run_err_in_leaf⟩

theorem C4_source_error_behavior_amended_witness :
    create_index idTr (.ok .other :: .ok (.startElement "JMdict") ::
      (flatCat entryEvents [eg1] ++ (.err :: []))) =
      .committed ([eg1].map (expectedDoc idTr)) (([eg1].length : Int)) ∧
    create_index idTr (.ok .other :: .ok (.startElement "JMdict") ::
      (flatCat entryEvents ([] : List Entry) ++
        (.ok (.startElement "entry") :: .ok (.startElement "ent_seq") :: .err :: []))) =
      .panicked :=
  ⟨C4_source_error_behavior_amended.1 idTr [eg1] [] (by decide),
    C4_source_error_behavior_amended.2 idTr [] [] (by decide)⟩

/-- C7: over a well-formed document, exactly one record is handed to
the sink per entry (when the entry element closes) and the processed
count equals the number of entries; an entry with zero sense children
still yields one committed, counted record whose meanings,
parts-of-speech and semantic-fields sequences are empty. -/
theorem C7_one_record_per_entry (romaji : String → String) (es : List Entry) (e : Entry)
    (h : ∀ x ∈ es ++ [e], (parseI64 x.ent_seq).isSome) :
    create_index romaji (docEvents (es ++ [e])) =
      .committed ((es ++ [e]).map (expectedDoc romaji)) (((es ++ [e]).length : Nat) : Int) ∧
    ((es ++ [e]).map (expectedDoc romaji)).length = es.length + 1 ∧
    (sensesOf e.items = [] →
      (expectedDoc romaji e).meaning = [] ∧ (expectedDoc romaji e).pos = [] ∧
        (expectedDoc romaji e).field = []) := by
  refine ⟨run_docEvents romaji (es ++ [e]) h, by simp, fun hs => ?_⟩
  exact ⟨by simp [expectedDoc, hs], by simp [expectedDoc, hs], by simp [expectedDoc, hs]⟩

theorem C7_one_record_per_entry_witness :
    (∀ x ∈ [eg1] ++ [egNoSense], (parseI64 x.ent_seq).isSome) ∧
      (create_index idTr (docEvents ([eg1] ++ [egNoSense])) =
        .committed (([eg1] ++ [egNoSense]).map (expectedDoc idTr))
          ((([eg1] ++ [egNoSense]).length : Nat) : Int) ∧
      (([eg1] ++ [egNoSense]).map (expectedDoc idTr)).length = [eg1].length + 1 ∧
      (sensesOf egNoSense.items = [] →
        (expectedDoc idTr egNoSense).meaning = [] ∧ (expectedDoc idTr egNoSense).pos = [] ∧
          (expectedDoc idTr egNoSense).field = [])) :=
  ⟨by decide, C7_one_record_per_entry idTr [eg1] egNoSense (by decide)⟩

/-- C9: a gloss, pos or field leaf that occurs inside an entry but
outside every sense element never shows up in any committed record:
the run over a document with such stray leaves commits exactly the
same records as the run over the document with them erased, and those
records draw their per-sense fields from the sense children only. -/
theorem C9_stray_leaves_invisible (romaji : String → String) (es : List Entry)
    (h : ∀ e ∈ es, (parseI64 e.ent_seq).isSome) :
    create_index romaji (docEvents es) =
      create_index romaji (docEvents (es.map eraseStrays)) ∧
    create_index romaji (docEvents es) =
      .committed (es.map (expectedDoc romaji)) (es.length : Int) := by
  have h2 : ∀ x ∈ es.map eraseStrays, (parseI64 x.ent_seq).isSome := by
    intro x hx
    obtain ⟨e, he, rfl⟩ := List.mem_map.mp hx
    simpa [eraseStrays] using h e he
  have hfun : expectedDoc romaji ∘ eraseStrays = expectedDoc romaji :=
    funext fun e => expectedDoc_eraseStrays romaji e
  constructor
  · rw [run_docEvents romaji es h, run_docEvents romaji (es.map eraseStrays) h2]
    rw [List.map_map, hfun, List.length_map]
  · exact run_docEvents romaji es h

theorem C9_stray_leaves_invisible_witness :
    (∀ e ∈ [egStray], (parseI64 e.ent_seq).isSome) ∧
      (create_index idTr (docEvents [egStray]) =
        create_index idTr (docEvents ([egStray].map eraseStrays)) ∧
      create_index idTr (docEvents [egStray]) =
        .committed ([egStray].map (expectedDoc idTr)) (([egStray].length : Int))) :=
  ⟨by decide, C9_stray_leaves_invisible idTr [egStray] (by decide)⟩

/-- C10 counterexample: a keb leaf between two entries is not absorbed
by any in-flight record and then discarded, as the claim states: once
the first entry has closed there is no in-flight record at all
(current entry is None) and the .as_mut().unwrap() on the leaf panics
the whole run — instead of the committed two-entry outcome the claim
implies. -/
theorem C10_between_entry_panics_cex :
    create_index idTr (.ok .other :: .ok (.startElement "JMdict") ::
      (flatCat entryEvents [eg1] ++
        (leafEvents "keb" "stray" ++ [.ok (.endElement "JMdict"), .ok .endDocument]))) =
      .panicked :=
  run_between_record_leaf idTr eg1 [] "stray"
    [.ok (.endElement "JMdict"), .ok .endDocument] (by decide)

/-- C10 amended: leaf content before the first entry is absorbed by
the initial placeholder record and by the sense buffers and never
appears in any committed record — every entry start installs a fresh
empty record and every sense start clears the buffers, so the run
commits exactly the records of the entries; between entries, however,
there is no in-flight record: a keb (or reb or ent_seq) leaf there
panics the run, so its content still never reaches the sink, but not
by being absorbed and discarded. -/
theorem C10_outside_entry_amended :
    (∀ (romaji : String → String) (pre : List PreLeaf) (es : List Entry),
      pre.all preOK = true → (∀ e ∈ es, (parseI64 e.ent_seq).isSome) →
      create_index romaji (.ok .other :: .ok (.startElement "JMdict") ::
        (flatCat preLeafEvents pre ++
          (flatCat entryEvents es ++ [.ok (.endElement "JMdict"), .ok .endDocument]))) =
        .committed (es.map (expectedDoc romaji)) (es.length : Int)) ∧
    (∀ (romaji : String → String) (e : Entry) (es : List Entry) (s : String)
      (rest : List REvent),
      (∀ x ∈ e :: es, (parseI64 x.ent_seq).isSome) →
      create_index romaji (.ok .other :: .ok (.startElement "JMdict") ::
        (flatCat entryEvents (e :: es) ++ (leafEvents "keb" s ++ rest))) = .panicked) :=
  ⟨run_pre_strays, run_between_record_leaf⟩

theorem C10_outside_entry_amended_witness :
    create_index idTr (.ok .other :: .ok (.startElement "JMdict") ::
      (flatCat preLeafEvents [PreLeaf.gloss "zz", PreLeaf.keb "kk"] ++
        (flatCat entryEvents [eg2] ++ [.ok (.endElement "JMdict"), .ok .endDocument]))) =
      .committed ([eg2].map (expectedDoc idTr)) (([eg2].length : Int)) ∧
    create_index idTr (.ok .other :: .ok (.startElement "JMdict") ::
      (flatCat entryEvents (eg2 :: []) ++ (leafEvents "keb" "w" ++ []))) = .panicked :=
  ⟨C10_outside_entry_amended.1 idTr [PreLeaf.gloss "zz", PreLeaf.keb "kk"] [eg2]
      (by decide) (by decide),
    C10_outside_entry_amended.2 idTr eg2 [] "w" [] (by decide)⟩
